import Mathlib

/-!
Shallow embedding of the promoter-name reconciliation and credit-installment
status engine of `integracion_app3.8.py` (plus `build_ranking` of
`integracion_app2.0.py`).

Modelling conventions:
* money amounts are exact rationals (`ℚ`), the idealisation of the floats the
  source manipulates;
* dates are day numbers (`ℤ`), with day `0` being Thursday 1970-01-01, so a
  day `d` is a Friday exactly when `d % 7 = 1`; differences of dates in days
  and Python integer floor division `//` translate to `Int` subtraction and
  `/` (Euclidean division agrees with floor division for the positive
  divisor `7`);
* a missing cell (pandas `NaN` / `NaT` / Python `None`) is `Option.none`;
* strings are Lean `String`s, manipulated through their `List Char` data.
-/

/- ------------------------------------------------------------------ -/
/- Small Python string primitives                                      -/
/- ------------------------------------------------------------------ -/

/-- Whitespace characters recognised by Python `str.strip` / `str.split`
(the repertoire appearing in spreadsheet cells). -/
def pyIsSpace (c : Char) : Bool :=
  c = ' ' || c = '\t' || c = '\n' || c = '\r'

/-- Python `str.strip()`: remove leading and trailing whitespace. -/
def pyStrip (s : List Char) : List Char :=
  ((s.dropWhile pyIsSpace).reverse.dropWhile pyIsSpace).reverse

/-- Python `str.replace (c, "")`: drop every occurrence of `c`. -/
def removeAll (c : Char) (s : List Char) : List Char :=
  s.filter (fun x => x ≠ c)

/-- Python `str.replace (a, b)` for single characters. -/
def replaceAll (a b : Char) (s : List Char) : List Char :=
  s.map (fun c => if c = a then b else c)

/-- Python `str.upper()` on the character repertoire of the roster data:
ASCII letters plus the accented Latin letters of Spanish names. -/
def pyUpperChar (c : Char) : Char :=
  if c = 'á' then 'Á' else if c = 'é' then 'É' else if c = 'í' then 'Í'
  else if c = 'ó' then 'Ó' else if c = 'ú' then 'Ú' else if c = 'ü' then 'Ü'
  else if c = 'ñ' then 'Ñ' else c.toUpper

/-- Models `unicodedata.normalize("NFKD", ·)` followed by removal of combining
marks (category `Mn`), restricted to the uppercase Latin repertoire the
normalizer meets (its input has already been upper-cased): each accented
letter decomposes into its base letter plus a combining mark, and the mark
is dropped. -/
def stripDiacritic (c : Char) : Char :=
  if c = 'Á' then 'A' else if c = 'É' then 'E' else if c = 'Í' then 'I'
  else if c = 'Ó' then 'O' else if c = 'Ú' then 'U' else if c = 'Ü' then 'U'
  else if c = 'Ñ' then 'N' else c

/-- Python `str.split()` with no argument: split on whitespace runs,
discarding empty fields. -/
def pySplit (s : List Char) : List (List Char) :=
  (s.splitOnP pyIsSpace).filter (fun w => w ≠ [])

/-- Python `" ".join(words)`. -/
def joinSpaces : List (List Char) → List Char
  | [] => []
  | [w] => w
  | w :: ws => w ++ ' ' :: joinSpaces ws

/-- Models `pandas.Series.str.strip().str.upper()` on one cell. -/
def pyStripUpper (s : String) : String :=
  ⟨(pyStrip s.data).map pyUpperChar⟩

/-- Python string comparison (lexicographic on code points), as used by
tuple comparison inside `heapq.nlargest`. -/
def listCharLt : List Char → List Char → Bool
  | [], [] => false
  | [], _ :: _ => true
  | _ :: _, [] => false
  | a :: as, b :: bs =>
    if a.toNat < b.toNat then true
    else if b.toNat < a.toNat then false
    else listCharLt as bs

/- ------------------------------------------------------------------ -/
/- Numeric Parser: `convert_number`                                    -/
/- ------------------------------------------------------------------ -/

/-- Numeric value of one ASCII digit. -/
def digitVal (c : Char) : ℕ := c.toNat - 48

/-- Value of a digit string read left to right. -/
def digitsVal (l : List Char) : ℕ :=
  l.foldl (fun n c => 10 * n + digitVal c) 0

/-- Python `float(s)` on decimal literals: optional sign, digits with at
most one decimal point and at least one digit; anything else fails
(`ValueError`, surfaced as `none`).  Exponent forms never occur in the
spreadsheet cells this program parses. -/
def parseFloat (l : List Char) : Option ℚ :=
  let sg : ℚ := match l with
    | '-' :: _ => -1
    | _ => 1
  let r : List Char := match l with
    | '-' :: t => t
    | '+' :: t => t
    | _ => l
  match List.splitOn '.' r with
  | [ip] =>
      if ip ≠ [] && ip.all Char.isDigit then some (sg * digitsVal ip) else none
  | [ip, fp] =>
      if (ip ≠ [] || fp ≠ []) && ip.all Char.isDigit && fp.all Char.isDigit then
        some (sg * ((digitsVal ip : ℚ) + (digitsVal fp : ℚ) / 10 ^ fp.length))
      else none
  | _ => none

/-- Models `convert_number` (integracion_app3.8.py lines 30-44): strip the cell;
if it has both a comma and a period, delete the periods and turn the comma
into a period; otherwise delete the commas; then `float(...)`, with parse
failure giving the null marker `none` (the source returns `np.nan`). -/
def convert_number (x : String) : Option ℚ :=
  let s := pyStrip x.data
  let s2 := if s.contains ',' && s.contains '.'
            then replaceAll ',' '.' (removeAll '.' s)
            else removeAll ',' s
  parseFloat s2

/- ------------------------------------------------------------------ -/
/- Name Normalizer: `normalize_name`                                   -/
/- ------------------------------------------------------------------ -/

/-- Models `normalize_name` (lines 88-94): strip, upper-case, NFKD-decompose and
drop combining marks, collapse internal whitespace. -/
def normalize_name (s : String) : String :=
  ⟨joinSpaces (pySplit (((pyStrip s.data).map pyUpperChar).map stripDiacritic))⟩

/- ------------------------------------------------------------------ -/
/- difflib: SequenceMatcher and get_close_matches                      -/
/- ------------------------------------------------------------------ -/

/-- Models `b2j` of `difflib.SequenceMatcher`: the ascending list of positions of
`c` in `b`.  The sequences matched here are short promoter names, far below
the 200-element threshold at which autojunk activates, so no element is
junk. -/
def idxList (b : List Char) (c : Char) : List ℕ :=
  (List.range b.length).filter (fun j => b.get? j = some c)

/-- One row (fixed `i`) of the core loop of `find_longest_match`: walk the
ascending positions `j` of `a[i]` in `b`, extend the run lengths recorded
in `j2len`, and track the best block seen.  The best block is a triple
`(besti, bestj, bestsize)`. -/
def flmRow (j2len : ℕ → ℕ) (i : ℕ) (js : List ℕ) (best : ℕ × ℕ × ℕ) :
    (ℕ → ℕ) × (ℕ × ℕ × ℕ) :=
  js.foldl
    (fun acc j =>
      let k := (if 0 < j then j2len (j - 1) else 0) + 1
      let m := fun x => if x = j then k else acc.1 x
      (m, if acc.2.2.2 < k then (i + 1 - k, j + 1 - k, k) else acc.2))
    ((fun _ => 0), best)

/-- Models `SequenceMatcher.find_longest_match(alo, ahi, blo, bhi)` with no junk:
the junk-extension passes after the main loop are no-ops when nothing is
junk, so only the main double loop is modelled. -/
def find_longest_match (a b : List Char) (alo ahi blo bhi : ℕ) : ℕ × ℕ × ℕ :=
  (((List.range ahi).drop alo).foldl
    (fun (st : (ℕ → ℕ) × (ℕ × ℕ × ℕ)) i =>
      match a.get? i with
      | some ai =>
          flmRow st.1 i ((idxList b ai).filter (fun j => decide (blo ≤ j ∧ j < bhi))) st.2
      | none => st)
    ((fun _ => 0), (alo, blo, 0))).2

/-- Models `SequenceMatcher.get_matching_blocks`, written with explicit fuel: each
recursive call strictly shrinks the pair of intervals, so
`a.length + b.length + 1` units of fuel always suffice.  The final
zero-length sentinel block and the adjacent-block merge of difflib are
omitted: they do not change the total matched count. -/
def matching_blocks_aux : ℕ → List Char → List Char → ℕ → ℕ → ℕ → ℕ → List (ℕ × ℕ × ℕ)
  | 0, _, _, _, _, _, _ => []
  | fuel + 1, a, b, alo, ahi, blo, bhi =>
    let r := find_longest_match a b alo ahi blo bhi
    if r.2.2 = 0 then []
    else
      matching_blocks_aux fuel a b alo r.1 blo r.2.1 ++
        r :: matching_blocks_aux fuel a b (r.1 + r.2.2) ahi (r.2.1 + r.2.2) bhi

/-- Models `SequenceMatcher.get_matching_blocks()` over the full sequences. -/
def matching_blocks (a b : List Char) : List (ℕ × ℕ × ℕ) :=
  matching_blocks_aux (a.length + b.length + 1) a b 0 a.length 0 b.length

/-- Total number of matched elements (`sum(size for _, _, size in blocks)`). -/
def blockSum (a b : List Char) : ℕ :=
  (matching_blocks a b).foldl (fun n t => n + t.2.2) 0

/-- Models `SequenceMatcher.ratio()`: `2*M/T` where `M` is the matched count and
`T` the total length; `1` when both sequences are empty (difflib
`_calculate_ratio`). -/
def ratioScore (a b : List Char) : ℚ :=
  if a.length + b.length = 0 then 1
  else 2 * (blockSum a b : ℚ) / ((a.length : ℚ) + (b.length : ℚ))

/-- The filter pass of `difflib.get_close_matches`: keep the candidates
whose ratio reaches the cutoff, paired with their score, in list order.
difflib also pre-tests `real_quick_ratio` and `quick_ratio`, which its own
documentation states are upper bounds on `ratio()`, so those tests never
change the accepted set and are not repeated here. -/
def candidateList (word : String) (possibilities : List String) (cutoff : ℚ) :
    List (ℚ × String) :=
  possibilities.filterMap (fun x =>
    let r := ratioScore x.data word.data
    if cutoff ≤ r then some (r, x) else none)

/-- Tuple comparison `p > q` on `(score, string)` pairs, as
`heapq.nlargest` compares them. -/
def pairGt (p q : ℚ × String) : Bool :=
  q.1 < p.1 || (p.1 = q.1 && listCharLt q.2.data p.2.data)

/-- Models `heapq.nlargest(1, result)` followed by taking the string component:
the greatest `(score, string)` pair, if any. -/
def nlargest1 : List (ℚ × String) → Option String
  | [] => none
  | p :: ps => some ((ps.foldl (fun best q => if pairGt q best then q else best) p).2)

/-- Models `fuzzy_map` (lines 96-102): closest match in `choices` if it reaches
`cutoff`, else `none`.  The call sites use the default cutoff `0.8`. -/
def fuzzy_map (name : String) (choices : List String) (cutoff : ℚ) : Option String :=
  nlargest1 (candidateList name choices cutoff)

/- ------------------------------------------------------------------ -/
/- Promoter Directory and dictionary primitives                        -/
/- ------------------------------------------------------------------ -/

/-- One row of `df_control` after `load_data_control`: `N` (code, already
stripped and upper-cased) and `Nombre` (display name, already stripped). -/
structure ControlRow where
  n : String
  nombre : String

/-- Models `df_control["Nombre_upper"]` (line 119). -/
def nombreUpper (r : ControlRow) : String := pyStripUpper r.nombre

/-- Lookup in `dict(zip(keys, vals))`: on duplicate keys the last pair
wins. -/
def dictGet (ps : List (String × String)) (k : String) : Option String :=
  (ps.reverse.find? (fun p => p.1 = k)).map (fun p => p.2)

/-- Models `list(dict(zip(keys, vals)).keys())`: keys in first-insertion order,
later duplicates dropped. -/
def dictKeys (ps : List (String × String)) : List String :=
  (ps.map (fun p => p.1)).eraseDups

/- ------------------------------------------------------------------ -/
/- Weekly bucketing: to_period("W-FRI")                                -/
/- ------------------------------------------------------------------ -/

/-- With day `0` a Thursday, `d` is a Friday exactly when `dayOfWeek d = 1`. -/
def dayOfWeek (d : ℤ) : ℤ := d % 7

/-- Models `to_period("W-FRI")` (e.g. line 163): the label of the weekly bucket
containing `d` is the first Friday on or after `d`. -/
def bucketEnd (d : ℤ) : ℤ := d + (1 - d) % 7

/-- Start (Saturday) of the bucket containing `d`. -/
def bucketStart (d : ℤ) : ℤ := bucketEnd d - 6

/- ------------------------------------------------------------------ -/
/- Cobranza reconciliation (main, lines 514-528)                       -/
/- ------------------------------------------------------------------ -/

/-- One row of `df_cobranza` after `load_data_cobranza`: the promoter-name
cell is already stripped and upper-cased (line 164). -/
structure CobranzaRow where
  nombrePromotor : String
  deposito : ℚ
  contrato : String
deriving DecidableEq

/-- The code column `N` of one cobranza row, per lines 514-528: normalize
the name, look it up in `dict(zip(normalize_name(Nombre), N))`; if
unmapped, replace the normalized name by its `fuzzy_map` match over the
dictionary keys (possibly `None`) and look that up instead. -/
def cobranza_code (control : List ControlRow) (r : CobranzaRow) : Option String :=
  let name_to_code := control.map (fun c => (normalize_name c.nombre, c.n))
  let norm := normalize_name r.nombrePromotor
  match dictGet name_to_code norm with
  | some c => some c
  | none => (fuzzy_map norm (dictKeys name_to_code) (4/5)).bind (dictGet name_to_code)

/-- Lines 514-528 over the whole table: every row is kept, paired with its
(possibly null) code; a row matched by no tier carries `none` (`NaN` in
the source). -/
def reconcile_cobranza (control : List ControlRow) (rows : List CobranzaRow) :
    List (CobranzaRow × Option String) :=
  rows.map (fun r => (r, cobranza_code control r))

/- ------------------------------------------------------------------ -/
/- Renewal-discount loader: `load_data_descuentos` (lines 302-387)     -/
/- ------------------------------------------------------------------ -/

/-- One raw row of the `Por Capturar` sheet: free-text promoter name, the
ministration date as `to_datetime(..., errors="coerce")` later leaves it
(`none` = `NaT`), and the raw discount cell. -/
structure DescRow where
  promotor : String
  fechaMinistracion : Option ℤ
  descuentoRenovacion : String

/-- One row of the aggregate `df_desc_agg` returned by
`load_data_descuentos`. -/
structure DescAggRow where
  n : String
  semana : ℤ
  descuentoRenovacion : ℚ
deriving DecidableEq

/-- Ascending order on `(code, week)` keys, as `groupby` sorts them. -/
def keyLe (a b : String × ℤ) : Bool :=
  listCharLt a.1.data b.1.data || (a.1 = b.1 && a.2 ≤ b.2)

/-- Insert into a sorted list (stable). -/
def insertSorted (le : String × ℤ → String × ℤ → Bool) (x : String × ℤ) :
    List (String × ℤ) → List (String × ℤ)
  | [] => [x]
  | y :: ys => if le x y then x :: y :: ys else y :: insertSorted le x ys

/-- Stable insertion sort: the ascending key order `groupby` emits. -/
def sortKeys (le : String × ℤ → String × ℤ → Bool) (l : List (String × ℤ)) :
    List (String × ℤ) :=
  l.foldr (insertSorted le) []

/-- Models `load_data_descuentos` (lines 302-387): strip/upper the promoter cell,
parse the discount with `convert_number`, drop unparsable rows, keep
strictly positive discounts; map the name to a code through
`Nombre_upper`, then through `fuzzy_map` on normalized names for the ones
left unmapped; then `dropna(subset=["CodigoPromotor"])` keeps only the
mapped rows, rows without a date are dropped, and the survivors are
grouped by `(code, week)` and summed. -/
def load_data_descuentos (control : List ControlRow) (rows : List DescRow) :
    List DescAggRow :=
  let rows2 := (rows.map (fun r => { r with promotor := pyStripUpper r.promotor })).filterMap
    (fun r => (convert_number r.descuentoRenovacion).map (fun d => (r, d)))
  let rows3 := rows2.filter (fun rd => decide (0 < rd.2))
  let name_to_code := control.map (fun c => (nombreUpper c, c.n))
  let control_norm := control.map (fun c => (normalize_name c.nombre, c.n))
  let choices := dictKeys control_norm
  let rowsN := rows3.map (fun rd =>
    match dictGet name_to_code rd.1.promotor with
    | some c => (rd, some c)
    | none =>
        (rd, (fuzzy_map (normalize_name rd.1.promotor) choices (4/5)).bind
          (dictGet control_norm)))
  let conN := rowsN.filterMap (fun rc =>
    match rc.2, rc.1.1.fechaMinistracion with
    | some c, some f => some (c, bucketEnd f, rc.1.2)
    | _, _ => none)
  let keys := sortKeys keyLe ((conN.map (fun t => (t.1, t.2.1))).eraseDups)
  keys.map (fun k =>
    { n := k.1, semana := k.2,
      descuentoRenovacion :=
        ((conN.filter (fun t => decide (t.1 = k.1 ∧ t.2.1 = k.2))).map
          (fun t => t.2.2)).sum })

/- ------------------------------------------------------------------ -/
/- Colocaciones reconciliation tiers (main, lines 552-590)             -/
/- ------------------------------------------------------------------ -/

/-- Per-row view of the colocaciones code assignment, with the fuzzy tier
abstracted as a parameter `fz`: tier 1 is the exact `Nombre_upper` map,
tier 2 the normalized-name map, tier 3 `fz` over the normalized directory
names followed by the same map.  Each tier is reached only through the
`none` branch of the previous one, exactly as the source applies each pass
only to the still-unmapped index set. -/
def assignNGen (fz : String → List String → Option String)
    (control : List ControlRow) (raw : String) : Option String :=
  let upperMap := control.map (fun c => (nombreUpper c, c.n))
  let normMap := control.map (fun c => (normalize_name c.nombre, c.n))
  match dictGet upperMap raw with
  | some c => some c
  | none =>
    match dictGet normMap (normalize_name raw) with
    | some c => some c
    | none => (fz (normalize_name raw) (dictKeys normMap)).bind (dictGet normMap)

/-- The code assignment as the source runs it, with
`fuzzy_map (..., cutoff=0.8)` as the third tier (line 582). -/
def assignN (control : List ControlRow) (raw : String) : Option String :=
  assignNGen (fun nm cs => fuzzy_map nm cs (4/5)) control raw

/- ------------------------------------------------------------------ -/
/- Targets: ranking exclusion vs cumulative-to-date                    -/
/- ------------------------------------------------------------------ -/

/-- One row of `df_metas_summary`: weekly target of one promoter, the week
identified by its Friday label. -/
structure MetaRow where
  promotor : String
  semana : ℤ
  meta : ℚ

/-- Models `transform("max")` of `Semana` within one promoter group. -/
def maxSemanaProm (metas : List MetaRow) (p : String) : Option ℤ :=
  ((metas.filter (fun r => r.promotor = p)).map (fun r => r.semana)).max?

/-- Models `build_ranking` (integracion_app2.0.py lines 287-290): drop, per
promoter, every row whose week equals the maximum week of its promoter. -/
def metas_sin_ultima (metas : List MetaRow) : List MetaRow :=
  metas.filter (fun r => decide (¬ some r.semana = maxSemanaProm metas r.promotor))

/-- The ranking target sum of one promoter (line 292): the `Meta` sum over
the rows left after the latest-week exclusion. -/
def ranking_meta_sum (metas : List MetaRow) (p : String) : ℚ :=
  (((metas_sin_ultima metas).filter (fun r => r.promotor = p)).map (fun r => r.meta)).sum

/-- The cumulative-to-date target sum (integracion_app3.8.py lines
988-992): sum of `Meta` over all weeks up to the selected cutoff week.
The outer merge with the cobranza sums only adds rows whose `Meta` is
filled with `0`, which do not move this sum. -/
def cum_meta_sum (metas : List MetaRow) (p : String) (cutoff : ℤ) : ℚ :=
  ((metas.filter (fun r => decide (r.promotor = p ∧ r.semana ≤ cutoff))).map
    (fun r => r.meta)).sum

/- ------------------------------------------------------------------ -/
/- Installment Accounting Engine (main, lines 1870-1937)               -/
/- ------------------------------------------------------------------ -/

/-- One credit row of `df_col_prom` as the loop at line 1876 reads it:
`cred.get("Contrato", None)` (a blank cell is pandas `NaN`, modelled
`none`; the `Contrato` column itself is never numeric-converted or
NaN-filtered upstream), `cred.get("PS", 0)` (numeric, `fillna(0)` at line
1820), `cred.get("FechaPrimerPago", None)` (`none` = `NaT`), and the
client name. -/
structure Cred where
  contrato : Option String
  ps : ℚ
  fechaPrimerPago : Option ℤ
  cliente : String

/-- One matched deposit row of `df_cob_prom` (fields `Contrato`,
`Deposito`). -/
structure Cob where
  contrato : String
  deposito : ℚ
deriving DecidableEq

/-- Output row of the per-credit metrics table `df_det`; the contract id
cell is copied through, so a credit with a blank (`NaN`) contract cell
produces a row whose `Contrato` is `NaN` (`none`). -/
structure Fila where
  cliente : String
  contrato : Option String
  pagosDebidos : ℤ
  pagosCompletos : ℤ
  pagosIncompletos : ℤ
  saldoVencido : ℚ
  pagosAdelantados : ℤ
  estatus : String
  color : String
deriving DecidableEq

/-- Line 1890: `weeks_elapsed = max(0, (hoy - fecha_fp).days // 7)`; for
the positive divisor `7`, `Int` division is floor division. -/
def weeks_elapsed (hoy fechaFp : ℤ) : ℤ := max 0 ((hoy - fechaFp) / 7)

/-- Line 1891: `pag_debidos = min(14, weeks_elapsed + 1)`. -/
def pag_debidos (hoy fechaFp : ℤ) : ℤ := min 14 (weeks_elapsed hoy fechaFp + 1)

/-- Lines 1894-1897: sum of the deposits whose contract id equals the
contract id of the credit. -/
def total_dep (cobs : List Cob) (contrato : String) : ℚ :=
  ((cobs.filter (fun c => c.contrato = contrato)).map Cob.deposito).sum

/-- Lines 1899-1902: `completos = min(int(total_dep // ps), 14) if ps > 0
else 0`; Python float floor division is the rational floor here. -/
def completos (td ps : ℚ) : ℤ := if 0 < ps then min ⌊td / ps⌋ 14 else 0

/-- Lines 1900-1903: `resto = total_dep % ps if ps > 0 else 0`; Python
float modulo is `td - ps * ⌊td / ps⌋`. -/
def resto (td ps : ℚ) : ℚ := if 0 < ps then td - ps * ⌊td / ps⌋ else 0

/-- Line 1905: `incompletos = 1 if 0 < resto < ps else 0`. -/
def incompletos (td ps : ℚ) : ℤ :=
  if 0 < resto td ps ∧ resto td ps < ps then 1 else 0

/-- Line 1906: `vencido_monto = max(0, pag_debidos * ps - total_dep)`. -/
def vencido_monto (hoy fechaFp : ℤ) (td ps : ℚ) : ℚ :=
  max 0 ((pag_debidos hoy fechaFp : ℚ) * ps - td)

/-- Line 1907: `adelantados = max(0, completos - pag_debidos)`. -/
def adelantados (hoy fechaFp : ℤ) (td ps : ℚ) : ℤ :=
  max 0 (completos td ps - pag_debidos hoy fechaFp)

/-- Lines 1910-1922: the lifecycle status chain.  The chain is an
`if/elif/elif/else`, so the initial `"Indeterminado"`/grey default is
always overwritten.  `fecha_venc_credito = fecha_fp + 13 weeks = 91 days`. -/
def estatus_color (hoy fechaFp : ℤ) (td ps : ℚ) : String × String :=
  if 14 ≤ completos td ps then ("Liquidado", "blue")
  else if pag_debidos hoy fechaFp ≤ completos td ps then ("Al corriente", "green")
  else if hoy < fechaFp + 91 then ("Atrasado", "orange")
  else ("Vencido", "red")

/-- The deposit total for one credit (lines 1894-1897): the deposits
whose `Contrato` equals the contract cell of the credit.  A blank (`NaN`)
contract cell compares unequal to everything (`NaN == x` is false in
pandas, including against another `NaN`), so the selection is empty and
the total is `0`. -/
def total_dep_cred (cobs : List Cob) (oc : Option String) : ℚ :=
  match oc with
  | some k => total_dep cobs k
  | none => 0

/-- The body of the loop at lines 1876-1935 for one credit.  The guard at
line 1882 is `contrato is None or pd.isna(fecha_fp_obj)`: the second
disjunct is a genuine per-row missing-value test (`NaT` skips the row),
but the first is not — `cred.get("Contrato", None)` returns `None` only
when the whole `Contrato` column is absent from the table, never for a
blank cell, which pandas reads as `NaN` and `NaN is None` is false.  So a
credit whose contract cell is blank passes the guard and is processed
(with `total_dep = 0`) and emitted; only a missing first-payment date
skips. -/
def metricsCred (hoy : ℤ) (cobs : List Cob) (cred : Cred) : Option Fila :=
  match cred.fechaPrimerPago with
  | some fechaFp =>
    let td := total_dep_cred cobs cred.contrato
    some { cliente := cred.cliente
           contrato := cred.contrato
           pagosDebidos := pag_debidos hoy fechaFp
           pagosCompletos := completos td cred.ps
           pagosIncompletos := incompletos td cred.ps
           saldoVencido := vencido_monto hoy fechaFp td cred.ps
           pagosAdelantados := adelantados hoy fechaFp td cred.ps
           estatus := (estatus_color hoy fechaFp td cred.ps).1
           color := (estatus_color hoy fechaFp td cred.ps).2 }
  | none => none

/-- The whole loop: the rows appended to `filas`, in order.  This list is
all the loop hands to the caller (it becomes `df_det`); a skipped credit
leaves no other trace. -/
def procesarCreditos (hoy : ℤ) (cobs : List Cob) (creds : List Cred) : List Fila :=
  creds.filterMap (metricsCred hoy cobs)

/- ================================================================== -/
/- Theorems                                                            -/
/- ================================================================== -/

/-- The quantity `weeks_elapsed` is clamped at zero. -/
theorem zero_le_weeks_elapsed (hoy f : ℤ) : 0 ≤ weeks_elapsed hoy f :=
  le_max_left 0 _

/-- At least one payment is always due (`min 14 (weeks_elapsed + 1)` with
`weeks_elapsed ≥ 0`). -/
theorem one_le_pag_debidos (hoy f : ℤ) : 1 ≤ pag_debidos hoy f := by
  have h0 : 0 ≤ weeks_elapsed hoy f := zero_le_weeks_elapsed hoy f
  exact le_min (by norm_num) (by omega)

/-- With a nonpositive installment size every counting quantity collapses
to the `else` branches. -/
theorem completos_of_ps_nonpos (td ps : ℚ) (h : ps ≤ 0) : completos td ps = 0 := by
  unfold completos
  rw [if_neg (by exact not_lt.mpr h)]

/-- The remainder `resto` is `0` when the installment size is nonpositive. -/
theorem resto_of_ps_nonpos (td ps : ℚ) (h : ps ≤ 0) : resto td ps = 0 := by
  unfold resto
  rw [if_neg (by exact not_lt.mpr h)]

/-- If more payments are completed than due, the overdue amount is zero. -/
theorem vencido_eq_zero_of_debidos_lt (hoy f : ℤ) (td ps : ℚ)
    (h : pag_debidos hoy f < completos td ps) :
    vencido_monto hoy f td ps = 0 := by
  by_cases hps : 0 < ps
  · have hc : completos td ps = min ⌊td / ps⌋ 14 := by
      unfold completos
      rw [if_pos hps]
    have hfl : pag_debidos hoy f + 1 ≤ ⌊td / ps⌋ := by
      rw [hc] at h
      have := min_le_left ⌊td / ps⌋ (14 : ℤ)
      omega
    have hle : ((pag_debidos hoy f : ℚ) + 1) ≤ td / ps := by
      have h2 : ((pag_debidos hoy f + 1 : ℤ) : ℚ) ≤ td / ps := by
        rw [← Int.le_floor] at *
        exact hfl
      push_cast at h2
      exact h2
    have hmul : ((pag_debidos hoy f : ℚ) + 1) * ps ≤ td := by
      rw [← le_div_iff₀ hps]
      exact hle
    have hlt : (pag_debidos hoy f : ℚ) * ps < td := by
      have : (pag_debidos hoy f : ℚ) * ps < ((pag_debidos hoy f : ℚ) + 1) * ps := by
        have := mul_lt_mul_of_pos_right (lt_add_one (pag_debidos hoy f : ℚ)) hps
        exact this
      linarith
    unfold vencido_monto
    exact max_eq_left (by linarith)
  · have h0 := completos_of_ps_nonpos td ps (not_lt.mp hps)
    have h1 := one_le_pag_debidos hoy f
    rw [h0] at h
    omega

/-- C10: for every loan (any installment size, deposit total and dates),
the overdue amount and the ahead count are never both strictly positive:
whenever `paymentsCompleted` exceeds `paymentsDue` the overdue amount is
`0`. -/
theorem no_overdue_and_ahead (hoy : ℤ) (cobs : List Cob) (cred : Cred)
    (fila : Fila) (h : metricsCred hoy cobs cred = some fila) :
    ¬ (0 < fila.saldoVencido ∧ 0 < fila.pagosAdelantados) ∧
    (fila.pagosDebidos < fila.pagosCompletos → fila.saldoVencido = 0) := by
  obtain ⟨oc, ps, ofp, cl⟩ := cred
  match hofp : ofp with
  | some f =>
    subst hofp
    unfold metricsCred at h
    simp only [Option.some.injEq] at h
    subst h
    constructor
    · rintro ⟨hv, ha⟩
      simp only [adelantados] at ha
      have hlt : pag_debidos hoy f < completos (total_dep_cred cobs oc) ps := by
        rcases max_choice (0 : ℤ) (completos (total_dep_cred cobs oc) ps - pag_debidos hoy f) with h1 | h1 <;>
          rw [h1] at ha <;> omega
      have := vencido_eq_zero_of_debidos_lt hoy f (total_dep_cred cobs oc) ps hlt
      simp only [this] at hv
      exact lt_irrefl 0 hv
    · intro hlt
      exact vencido_eq_zero_of_debidos_lt hoy f (total_dep_cred cobs oc) ps hlt
  | none => subst hofp; simp [metricsCred] at h

unseal Rat.add Rat.mul Rat.inv Rat.sub in
/-- Witness for C10 at a concrete loan that is two payments ahead. -/
theorem no_overdue_and_ahead_witness :
    ¬ (0 < ({ cliente := "A", contrato := some "C1", pagosDebidos := 1, pagosCompletos := 3, pagosIncompletos := 0, saldoVencido := 0, pagosAdelantados := 2, estatus := "Al corriente", color := "green" } : Fila).saldoVencido ∧
       0 < ({ cliente := "A", contrato := some "C1", pagosDebidos := 1, pagosCompletos := 3, pagosIncompletos := 0, saldoVencido := 0, pagosAdelantados := 2, estatus := "Al corriente", color := "green" } : Fila).pagosAdelantados) ∧
    (({ cliente := "A", contrato := some "C1", pagosDebidos := 1, pagosCompletos := 3, pagosIncompletos := 0, saldoVencido := 0, pagosAdelantados := 2, estatus := "Al corriente", color := "green" } : Fila).pagosDebidos <
       ({ cliente := "A", contrato := some "C1", pagosDebidos := 1, pagosCompletos := 3,
          pagosIncompletos := 0, saldoVencido := 0, pagosAdelantados := 2,
          estatus := "Al corriente", color := "green" } : Fila).pagosCompletos →
       ({ cliente := "A", contrato := some "C1", pagosDebidos := 1, pagosCompletos := 3,
          pagosIncompletos := 0, saldoVencido := 0, pagosAdelantados := 2,
          estatus := "Al corriente", color := "green" } : Fila).saldoVencido = 0) :=
  no_overdue_and_ahead 1 [{ contrato := "C1", deposito := 300 }]
    { contrato := some "C1", ps := 100, fechaPrimerPago := some 0, cliente := "A" }
    _ (by decide)

/-- C5: a loan with `installmentSize = 100` and matched deposits totaling
`1400` reports `paymentsCompleted = 14` and state `Liquidado` (PAID_OFF)
for every reference date and first-payment date, i.e. regardless of
`paymentsDue`: the `paymentsCompleted >= 14` test precedes the ONTIME,
LATE and OVERDUE tests. -/
theorem paid_off_scenario (hoy : ℤ) (cobs : List Cob) (cred : Cred) (k : String) (f : ℤ)
    (hc : cred.contrato = some k) (hf : cred.fechaPrimerPago = some f)
    (hps : cred.ps = 100) (hdep : total_dep cobs k = 1400) :
    (metricsCred hoy cobs cred).map Fila.pagosCompletos = some 14 ∧
    (metricsCred hoy cobs cred).map Fila.estatus = some "Liquidado" := by
  have hfl : ⌊(1400 : ℚ) / 100⌋ = 14 := by
    have h14 : (1400 : ℚ) / 100 = ((14 : ℤ) : ℚ) := by norm_num
    rw [h14, Int.floor_intCast]
  have hcompl : completos (total_dep cobs k) cred.ps = 14 := by
    unfold completos
    rw [hps, hdep, if_pos (by norm_num), hfl]
    exact min_self 14
  have hest : estatus_color hoy f (total_dep cobs k) cred.ps = ("Liquidado", "blue") := by
    unfold estatus_color
    rw [hcompl, if_pos (by norm_num)]
  simp only [metricsCred, hc, hf, total_dep_cred, Option.map_some']
  exact ⟨by rw [hcompl], by rw [hest]⟩

unseal Rat.add Rat.mul Rat.inv Rat.sub in
/-- Witness for C5: one deposit of `1400` on the matched contract, with
only one week elapsed (`paymentsDue = 2`). -/
theorem paid_off_scenario_witness :
    (metricsCred 8 [{ contrato := "C1", deposito := 1400 }]
        { contrato := some "C1", ps := 100, fechaPrimerPago := some 0, cliente := "A" }).map Fila.pagosCompletos = some 14 ∧
    (metricsCred 8 [{ contrato := "C1", deposito := 1400 }]
        { contrato := some "C1", ps := 100, fechaPrimerPago := some 0, cliente := "A" }).map Fila.estatus = some "Liquidado" :=
  paid_off_scenario 8 [{ contrato := "C1", deposito := 1400 }]
    { contrato := some "C1", ps := 100, fechaPrimerPago := some 0, cliente := "A" }
    "C1" 0 rfl rfl rfl (by decide)

/-- C1 (amended): with `installmentSize ≤ 0` the completed and incomplete
counts (and the ahead count) are all `0`, but the reported status is never
`Indeterminado` (UNKNOWN): the status chain always overwrites that
default, giving `Atrasado` (LATE) before `firstPaymentDate + 13` weeks and
`Vencido` (OVERDUE) from then on. -/
theorem ps_nonpos_metrics (hoy : ℤ) (cobs : List Cob) (cred : Cred) (k : String) (f : ℤ)
    (hc : cred.contrato = some k) (hf : cred.fechaPrimerPago = some f)
    (hps : cred.ps ≤ 0) :
    (metricsCred hoy cobs cred).map Fila.pagosCompletos = some 0 ∧
    (metricsCred hoy cobs cred).map Fila.pagosIncompletos = some 0 ∧
    (metricsCred hoy cobs cred).map Fila.pagosAdelantados = some 0 ∧
    (metricsCred hoy cobs cred).map Fila.estatus =
      some (if hoy < f + 91 then "Atrasado" else "Vencido") ∧
    ¬ (metricsCred hoy cobs cred).map Fila.estatus = some "Indeterminado" := by
  have hcompl := completos_of_ps_nonpos (total_dep cobs k) cred.ps hps
  have hr := resto_of_ps_nonpos (total_dep cobs k) cred.ps hps
  have hpd := one_le_pag_debidos hoy f
  have hinc : incompletos (total_dep cobs k) cred.ps = 0 := by
    unfold incompletos
    rw [hr]
    simp
  have hade : adelantados hoy f (total_dep cobs k) cred.ps = 0 := by
    unfold adelantados
    rw [hcompl]
    omega
  have hest : estatus_color hoy f (total_dep cobs k) cred.ps =
      (if hoy < f + 91 then ("Atrasado", "orange") else ("Vencido", "red")) := by
    unfold estatus_color
    rw [hcompl, if_neg (by omega), if_neg (by omega)]
  simp only [metricsCred, hc, hf, total_dep_cred, Option.map_some']
  refine ⟨by rw [hcompl], by rw [hinc], by rw [hade], ?_, ?_⟩
  · rw [hest]
    by_cases hlt : hoy < f + 91
    · rw [if_pos hlt, if_pos hlt]
    · rw [if_neg hlt, if_neg hlt]
  · rw [hest]
    by_cases hlt : hoy < f + 91
    · rw [if_pos hlt]
      simp
    · rw [if_neg hlt]
      simp

unseal Rat.add Rat.mul Rat.inv Rat.sub in
/-- Witness for the amended C1: `installmentSize = 0`, ten days after the
first payment date. -/
theorem ps_nonpos_metrics_witness :
    (metricsCred 10 [] { contrato := some "C1", ps := 0, fechaPrimerPago := some 0, cliente := "X" }).map Fila.pagosCompletos = some 0 ∧
    (metricsCred 10 [] { contrato := some "C1", ps := 0, fechaPrimerPago := some 0, cliente := "X" }).map Fila.pagosIncompletos = some 0 ∧
    (metricsCred 10 [] { contrato := some "C1", ps := 0, fechaPrimerPago := some 0, cliente := "X" }).map Fila.pagosAdelantados = some 0 ∧
    (metricsCred 10 [] { contrato := some "C1", ps := 0, fechaPrimerPago := some 0, cliente := "X" }).map Fila.estatus =
      some (if (10 : ℤ) < 0 + 91 then "Atrasado" else "Vencido") ∧
    ¬ (metricsCred 10 [] { contrato := some "C1", ps := 0, fechaPrimerPago := some 0, cliente := "X" }).map Fila.estatus = some "Indeterminado" :=
  ps_nonpos_metrics 10 [] { contrato := some "C1", ps := 0, fechaPrimerPago := some 0, cliente := "X" } "C1" 0 rfl rfl (by norm_num)

unseal Rat.add Rat.mul Rat.inv Rat.sub in
/-- C1 as stated is false: with `installmentSize = 0`, matched deposits
empty and the reference date `1000` days past the first payment date, the
counts are `0` but the reported status is `Vencido`, not `Indeterminado`. -/
theorem estatus_ps_zero_not_indeterminado :
    (metricsCred 1000 [] { contrato := some "C1", ps := 0, fechaPrimerPago := some 0, cliente := "X" }).map Fila.pagosCompletos = some 0 ∧
    (metricsCred 1000 [] { contrato := some "C1", ps := 0, fechaPrimerPago := some 0, cliente := "X" }).map Fila.pagosIncompletos = some 0 ∧
    (metricsCred 1000 [] { contrato := some "C1", ps := 0, fechaPrimerPago := some 0, cliente := "X" }).map Fila.estatus = some "Vencido" ∧
    ¬ (metricsCred 1000 [] { contrato := some "C1", ps := 0, fechaPrimerPago := some 0, cliente := "X" }).map Fila.estatus = some "Indeterminado" := by
  decide

/-- C4 (amended): a credit whose first-payment date is missing (`NaT`) is
skipped entirely: its per-row metric is `none` and the output table for
any credit list containing it equals the output for the list without it,
so it never appears there and no skip count or other trace reaches the
caller.  A credit whose contract id cell is blank (`NaN`), however, is
NOT skipped: only the `contrato is None` half of the guard could catch
it, and a `NaN` cell passes that test, so the row is processed with zero
matched deposits and emitted carrying the null contract id. -/
theorem missing_fields_skipped (hoy : ℤ) (cobs : List Cob) (l1 l2 : List Cred)
    (cred credC : Cred) (f : ℤ)
    (hd : cred.fechaPrimerPago = none)
    (hcn : credC.contrato = none) (hf : credC.fechaPrimerPago = some f) :
    metricsCred hoy cobs cred = none ∧
    procesarCreditos hoy cobs (l1 ++ cred :: l2) = procesarCreditos hoy cobs (l1 ++ l2) ∧
    (metricsCred hoy cobs credC).map Fila.contrato = some none := by
  have hm : metricsCred hoy cobs cred = none := by
    simp [metricsCred, hd]
  refine ⟨hm, ?_, ?_⟩
  · unfold procesarCreditos
    rw [List.filterMap_append, List.filterMap_append, List.filterMap_cons, hm]
  · simp only [metricsCred, hf, Option.map_some']
    rw [hcn]

unseal Rat.add Rat.mul Rat.inv Rat.sub in
/-- Witness for the amended C4: a credit with a missing first-payment
date, inserted after one valid credit, together with a credit whose
contract cell is blank. -/
theorem missing_fields_skipped_witness :
    metricsCred 1000 [] { contrato := some "C2", ps := 100, fechaPrimerPago := none, cliente := "B" } = none ∧
    procesarCreditos 1000 []
        ([{ contrato := some "C1", ps := 100, fechaPrimerPago := some 0, cliente := "A" }] ++
          { contrato := some "C2", ps := 100, fechaPrimerPago := none, cliente := "B" } :: []) =
      procesarCreditos 1000 []
        ([{ contrato := some "C1", ps := 100, fechaPrimerPago := some 0, cliente := "A" }] ++ []) ∧
    (metricsCred 1000 [] { contrato := none, ps := 100, fechaPrimerPago := some 0, cliente := "C" }).map Fila.contrato = some none :=
  missing_fields_skipped 1000 []
    [{ contrato := some "C1", ps := 100, fechaPrimerPago := some 0, cliente := "A" }] []
    { contrato := some "C2", ps := 100, fechaPrimerPago := none, cliente := "B" }
    { contrato := none, ps := 100, fechaPrimerPago := some 0, cliente := "C" }
    0 rfl rfl rfl

unseal Rat.add Rat.mul Rat.inv Rat.sub in
/-- C4 as stated is false twice over: a loan whose contract cell is blank
(`NaN`) is not skipped — here it appears in the output table with a null
contract id and the status `Vencido` — and a loan skipped for its missing
first-payment date leaves the caller-visible output unchanged, so no skip
count is surfaced. -/
theorem nan_contract_emitted_vencido :
    (procesarCreditos 1000 []
        [{ contrato := none, ps := 100, fechaPrimerPago := some 0, cliente := "B" }]).map Fila.estatus = ["Vencido"] ∧
    (procesarCreditos 1000 []
        [{ contrato := none, ps := 100, fechaPrimerPago := some 0, cliente := "B" }]).map Fila.contrato = [none] ∧
    procesarCreditos 1000 []
        [{ contrato := some "C1", ps := 100, fechaPrimerPago := some 0, cliente := "A" }, { contrato := some "C2", ps := 100, fechaPrimerPago := none, cliente := "B" }] =
      procesarCreditos 1000 []
        [{ contrato := some "C1", ps := 100, fechaPrimerPago := some 0, cliente := "A" }] := by
  decide

unseal Rat.add Rat.mul Rat.inv Rat.sub in
/-- C2: the round-trip claim fails on the code, which here contradicts its
own docstring and its unit test `test_convert_number` (both state
`"1,234.56" -> 1234.56`): the both-separators branch first deletes the
decimal point and then converts the thousands comma into a decimal point,
so the US layout parses to `1.23456`.  The European layout `"1.234,56"`
and the comma-free `"234.56"` do round-trip. -/
theorem convert_number_separator_layouts :
    convert_number "1,234.56" = some ((123456 : ℚ) / 100000) ∧
    ¬ convert_number "1,234.56" = some ((123456 : ℚ) / 100) ∧
    convert_number "1.234,56" = some ((123456 : ℚ) / 100) ∧
    convert_number "234.56" = some ((23456 : ℚ) / 100) := by
  decide

/-- C8: every date `d` lies inside the bucket labeled `bucketEnd d`; the
bucket spans six days from its Saturday start to its Friday end; the end
is always a Friday; any two dates of one bucket get bucket-equal results;
and no other Friday-labeled week contains `d`. -/
theorem week_bucket_containment (d : ℤ) :
    bucketStart d ≤ d ∧ d ≤ bucketEnd d ∧
    bucketEnd d - bucketStart d = 6 ∧
    dayOfWeek (bucketEnd d) = 1 ∧
    (∀ e : ℤ, bucketStart d ≤ e → e ≤ bucketEnd d →
      bucketEnd e = bucketEnd d ∧ bucketStart e = bucketStart d) ∧
    (∀ f : ℤ, dayOfWeek f = 1 → d ≤ f → f ≤ d + 6 → f = bucketEnd d) := by
  unfold bucketStart bucketEnd dayOfWeek
  refine ⟨by omega, by omega, by omega, by omega, ?_, ?_⟩
  · intro e h1 h2
    omega
  · intro f h1 h2 h3
    omega

/-- Witness for C8 at the Saturday day `2`: the Tuesday day `5` of the
same bucket gets the same label, and day `8` is the only Friday within a
week of it other than its label day `8`. -/
theorem week_bucket_containment_witness :
    bucketEnd 5 = bucketEnd 2 ∧ bucketStart 5 = bucketStart 2 ∧ (8 : ℤ) = bucketEnd 2 := by
  have h := week_bucket_containment 2
  refine ⟨(h.2.2.2.2.1 5 (by decide) (by decide)).1,
          (h.2.2.2.2.1 5 (by decide) (by decide)).2,
          h.2.2.2.2.2 8 (by decide) (by decide) (by decide)⟩

/-- C7: the reconciliation tiers are strictly layered.  If the exact
`Nombre_upper` lookup succeeds, the assigned code is its result whatever
the later tiers would do (the normalized and fuzzy tiers are never invoked
for that row); if it fails and the normalized lookup succeeds, the result
comes from that lookup, whatever the fuzzy tier would do; only when both fail is
the fuzzy tier consulted. -/
theorem tier_monotonicity (control : List ControlRow) (raw : String) :
    (∀ c, dictGet (control.map (fun r => (nombreUpper r, r.n))) raw = some c →
      assignN control raw = some c ∧
      ∀ fz, assignNGen fz control raw = some c) ∧
    (dictGet (control.map (fun r => (nombreUpper r, r.n))) raw = none →
      ∀ c, dictGet (control.map (fun r => (normalize_name r.nombre, r.n)))
          (normalize_name raw) = some c →
        ∀ fz, assignNGen fz control raw = some c) ∧
    (dictGet (control.map (fun r => (nombreUpper r, r.n))) raw = none →
      dictGet (control.map (fun r => (normalize_name r.nombre, r.n)))
          (normalize_name raw) = none →
      ∀ fz, assignNGen fz control raw =
        (fz (normalize_name raw)
            (dictKeys (control.map (fun r => (normalize_name r.nombre, r.n))))).bind
          (dictGet (control.map (fun r => (normalize_name r.nombre, r.n))))) := by
  refine ⟨?_, ?_, ?_⟩
  · intro c hc
    constructor
    · unfold assignN
      simp only [assignNGen]
      rw [hc]
    · intro fz
      simp only [assignNGen]
      rw [hc]
  · intro h1 c h2 fz
    simp only [assignNGen]
    rw [h1, h2]
  · intro h1 h2 fz
    simp only [assignNGen]
    rw [h1, h2]

/-- Witness for C7: a name that matches the directory exactly after
upper-casing resolves at tier 1 under every fuzzy tier, in particular
under a fuzzy function that would claim a match everywhere. -/
theorem tier_monotonicity_witness :
    assignN [{ n := "P1", nombre := "Promotor Uno" }] "PROMOTOR UNO" = some "P1" ∧
    assignNGen (fun _ _ => some "MARIA LOPEZ") [{ n := "P1", nombre := "Promotor Uno" }]
      "PROMOTOR UNO" = some "P1" := by
  have h := (tier_monotonicity [{ n := "P1", nombre := "Promotor Uno" }] "PROMOTOR UNO").1
    "P1" (by decide)
  exact ⟨h.1, h.2 (fun _ _ => some "MARIA LOPEZ")⟩

/-- The fuzzy filter keeps nothing when every choice scores strictly below
the cutoff. -/
theorem candidateList_eq_nil (q : String) (cs : List String)
    (h : ∀ y ∈ cs, ratioScore y.data q.data < 4/5) :
    candidateList q cs (4/5) = [] := by
  induction cs with
  | nil => rfl
  | cons c t ih =>
    unfold candidateList
    simp only [List.filterMap_cons]
    rw [if_neg (not_le.mpr (h c (List.mem_cons_self c t)))]
    exact ih (fun y hy => h y (List.mem_cons_of_mem c hy))

/-- C9: with the fixed cutoff `0.8`, a choice whose similarity to the
query is exactly `0.8` is accepted (the result is not `none`), while a
query all of whose choices score strictly below `0.8` gets `none`. -/
theorem fuzzy_cutoff_boundary (q : String) (cs : List String) :
    (∀ x, x ∈ cs → ratioScore x.data q.data = 4/5 → ¬ fuzzy_map q cs (4/5) = none) ∧
    ((∀ y ∈ cs, ratioScore y.data q.data < 4/5) → fuzzy_map q cs (4/5) = none) := by
  constructor
  · intro x hx hr hnone
    have hmem : ((4/5 : ℚ), x) ∈ candidateList q cs (4/5) := by
      apply List.mem_filterMap.mpr
      refine ⟨x, hx, ?_⟩
      simp only [hr, if_pos (le_refl (4/5 : ℚ))]
    unfold fuzzy_map at hnone
    rcases hl : candidateList q cs (4/5) with _ | ⟨p, ps⟩
    · rw [hl] at hmem
      exact absurd hmem (List.not_mem_nil _)
    · rw [hl] at hnone
      exact Option.some_ne_none _ hnone
  · intro h
    unfold fuzzy_map
    rw [candidateList_eq_nil q cs h]
    rfl

unseal Rat.add Rat.mul Rat.inv Rat.sub in
/-- Witness for C9: `ratio("ABCDE", "ABCDF") = 0.8` exactly, so the match
is accepted; and against the single choice `"XYZ"` the query `"AB"` scores
`0`, below the cutoff, so no match is returned. -/
theorem fuzzy_cutoff_boundary_witness :
    ¬ fuzzy_map "ABCDF" ["ABCDE"] (4/5) = none ∧ fuzzy_map "AB" ["XYZ"] (4/5) = none :=
  ⟨(fuzzy_cutoff_boundary "ABCDF" ["ABCDE"]).1 "ABCDE" (by decide) (by decide),
   (fuzzy_cutoff_boundary "AB" ["XYZ"]).2 (by decide)⟩

/-- A member of a list is bounded by its `max?`. -/
theorem le_of_mem_max? {l : List ℤ} {a m : ℤ} (ha : a ∈ l) (hm : l.max? = some m) :
    a ≤ m :=
  (List.max?_le_iff (fun _ _ _ => max_le_iff) hm).1 (le_refl m) a ha

/-- Every week of promoter `p` is bounded by `maxSemanaProm`. -/
theorem semana_le_max (metas : List MetaRow) (p : String) (mw : ℤ)
    (hmax : maxSemanaProm metas p = some mw) (r : MetaRow) (hr : r ∈ metas)
    (hp : r.promotor = p) : r.semana ≤ mw := by
  apply le_of_mem_max? _ hmax
  exact List.mem_map_of_mem _ (List.mem_filter.mpr ⟨hr, by simp [hp]⟩)

/-- C6: for a promoter whose target records reach up to week `mw` (and
that has at least one earlier record), the ranking aggregation sums
exactly the records of the weeks before `mw` — the most recent week bucket
is excluded — while the cumulative-to-date sum at cutoff `mw` sums every
record of the promoter with no exclusion. -/
theorem ranking_exclusion (metas : List MetaRow) (p : String) (mw : ℤ)
    (hmax : maxSemanaProm metas p = some mw)
    (htwo : ∃ r ∈ metas, r.promotor = p ∧ r.semana < mw) :
    ranking_meta_sum metas p =
      ((metas.filter (fun r => decide (r.promotor = p ∧ r.semana < mw))).map
        (fun r => r.meta)).sum ∧
    cum_meta_sum metas p mw =
      ((metas.filter (fun r => r.promotor = p)).map (fun r => r.meta)).sum := by
  constructor
  · unfold ranking_meta_sum metas_sin_ultima
    rw [List.filter_filter]
    congr 2
    apply List.filter_congr
    intro r hr
    by_cases hp : r.promotor = p
    · have hle := semana_le_max metas p mw hmax r hr hp
      rw [Bool.eq_iff_iff]
      simp only [hp, hmax, Bool.and_eq_true, decide_eq_true_eq, Option.some.injEq,
        true_and, and_true, not_true, not_false_iff, eq_self_iff_true]
      omega
    · rw [Bool.eq_iff_iff]
      simp [hp]
  · unfold cum_meta_sum
    congr 2
    apply List.filter_congr
    intro r hr
    by_cases hp : r.promotor = p
    · have hle := semana_le_max metas p mw hmax r hr hp
      rw [Bool.eq_iff_iff]
      simp [hp, hle]
    · rw [Bool.eq_iff_iff]
      simp [hp]

/-- Witness for C6: a promoter with records in two weeks, `1` and `8`. -/
theorem ranking_exclusion_witness :
    ranking_meta_sum [{ promotor := "P1", semana := 1, meta := 100 }, { promotor := "P1", semana := 8, meta := 200 }] "P1" =
      ((([{ promotor := "P1", semana := 1, meta := 100 }, { promotor := "P1", semana := 8, meta := 200 }] : List MetaRow).filter
          (fun r => decide (r.promotor = "P1" ∧ r.semana < 8))).map (fun r => r.meta)).sum ∧
    cum_meta_sum [{ promotor := "P1", semana := 1, meta := 100 }, { promotor := "P1", semana := 8, meta := 200 }] "P1" 8 =
      ((([{ promotor := "P1", semana := 1, meta := 100 }, { promotor := "P1", semana := 8, meta := 200 }] : List MetaRow).filter
          (fun r => r.promotor = "P1")).map (fun r => r.meta)).sum :=
  ranking_exclusion
    [{ promotor := "P1", semana := 1, meta := 100 }, { promotor := "P1", semana := 8, meta := 200 }]
    "P1" 8 (by decide) (by decide)

/-- A value produced by `dictGet` is one of the dictionary values. -/
theorem dictGet_mem_values (ps : List (String × String)) (k v : String)
    (h : dictGet ps k = some v) : v ∈ ps.map Prod.snd := by
  unfold dictGet at h
  rcases hf : ps.reverse.find? (fun p => p.1 = k) with _ | pr
  · rw [hf] at h
    simp at h
  · rw [hf] at h
    simp only [Option.map_some'] at h
    injection h with h
    have hm := List.mem_of_find?_eq_some hf
    rw [List.mem_reverse] at hm
    exact h ▸ List.mem_map_of_mem Prod.snd hm

/-- A code looked up in a directory-derived dictionary is a directory
code. -/
theorem dictGet_control_mem (control : List ControlRow) (f : ControlRow → String)
    (k v : String) (h : dictGet (control.map (fun c => (f c, c.n))) k = some v) :
    v ∈ control.map ControlRow.n := by
  have h2 := dictGet_mem_values _ k v h
  rw [List.map_map] at h2
  simpa [Function.comp] using h2

/-- Membership view of `insertSorted`. -/
theorem mem_insertSorted (le : String × ℤ → String × ℤ → Bool) (x y : String × ℤ)
    (l : List (String × ℤ)) (h : y ∈ insertSorted le x l) : y = x ∨ y ∈ l := by
  induction l with
  | nil =>
    unfold insertSorted at h
    rcases List.mem_cons.mp h with rfl | h2
    · exact Or.inl rfl
    · exact absurd h2 (List.not_mem_nil y)
  | cons a t ih =>
    unfold insertSorted at h
    by_cases hle : le x a
    · rw [if_pos hle] at h
      rcases List.mem_cons.mp h with rfl | h2
      · exact Or.inl rfl
      · exact Or.inr h2
    · rw [if_neg hle] at h
      rcases List.mem_cons.mp h with rfl | h2
      · exact Or.inr (List.mem_cons_self _ _)
      · rcases ih h2 with h3 | h3
        · exact Or.inl h3
        · exact Or.inr (List.mem_cons_of_mem _ h3)

/-- Membership view of `sortKeys`. -/
theorem mem_sortKeys (le : String × ℤ → String × ℤ → Bool) (l : List (String × ℤ))
    (y : String × ℤ) (h : y ∈ sortKeys le l) : y ∈ l := by
  induction l with
  | nil => exact absurd h (List.not_mem_nil y)
  | cons a t ih =>
    unfold sortKeys at h
    simp only [List.foldr_cons] at h
    rcases mem_insertSorted le a y _ h with rfl | h2
    · exact List.mem_cons_self _ _
    · exact List.mem_cons_of_mem _ (ih h2)

/-- Membership view of the accumulator loop of `List.eraseDups`. -/
theorem mem_eraseDups_loop {α : Type} [BEq α] (as : List α) (x : α) :
    ∀ bs : List α, x ∈ List.eraseDups.loop as bs → x ∈ as ∨ x ∈ bs := by
  induction as with
  | nil =>
    intro bs h
    simp only [List.eraseDups.loop] at h
    exact Or.inr (List.mem_reverse.mp h)
  | cons a t ih =>
    intro bs h
    simp only [List.eraseDups.loop] at h
    cases hb : bs.elem a with
    | true =>
      rw [hb] at h
      rcases ih bs h with h2 | h2
      · exact Or.inl (List.mem_cons_of_mem a h2)
      · exact Or.inr h2
    | false =>
      rw [hb] at h
      rcases ih (a :: bs) h with h2 | h2
      · exact Or.inl (List.mem_cons_of_mem a h2)
      · rcases List.mem_cons.mp h2 with rfl | h3
        · exact Or.inl (List.mem_cons_self _ _)
        · exact Or.inr h3

/-- Membership view of `List.eraseDups`. -/
theorem mem_eraseDups {α : Type} [BEq α] (l : List α) (x : α)
    (h : x ∈ l.eraseDups) : x ∈ l := by
  unfold List.eraseDups at h
  rcases mem_eraseDups_loop l x [] h with h2 | h2
  · exact h2
  · exact absurd h2 (List.not_mem_nil x)

/-- C3 (amended): rows whose promoter name fails every reconciliation tier
are retained with a null code by the deposit (cobranza) reconciliation —
the reconciler keeps every row, and a row failing the normalized lookup
and the fuzzy fallback carries code `none`; the renewal-discount loader
`load_data_descuentos`, however, silently drops such rows: every row of
its aggregated output carries a code of the Promoter Directory, and the
loader returns nothing else — no null-code rows and no unmatched-names
report. -/
theorem unmatched_retention (control : List ControlRow) (rows : List CobranzaRow)
    (descRows : List DescRow) :
    (reconcile_cobranza control rows).map Prod.fst = rows ∧
    (∀ r ∈ rows,
      dictGet (control.map (fun c => (normalize_name c.nombre, c.n)))
          (normalize_name r.nombrePromotor) = none →
      fuzzy_map (normalize_name r.nombrePromotor)
          (dictKeys (control.map (fun c => (normalize_name c.nombre, c.n)))) (4/5) = none →
      (r, (none : Option String)) ∈ reconcile_cobranza control rows) ∧
    (∀ a ∈ load_data_descuentos control descRows, a.n ∈ control.map ControlRow.n) := by
  refine ⟨?_, ?_, ?_⟩
  · unfold reconcile_cobranza
    rw [List.map_map]
    exact List.map_id rows
  · intro r hr h1 h2
    have hcode : cobranza_code control r = none := by
      simp only [cobranza_code]
      rw [h1, h2]
      rfl
    unfold reconcile_cobranza
    refine List.mem_map.mpr ⟨r, hr, ?_⟩
    show (r, cobranza_code control r) = (r, none)
    rw [hcode]
  · intro a ha
    simp only [load_data_descuentos] at ha
    rcases List.mem_map.mp ha with ⟨k, hk, rfl⟩
    simp only []
    have hk2 := mem_sortKeys _ _ _ hk
    have hk3 := mem_eraseDups _ _ hk2
    rcases List.mem_map.mp hk3 with ⟨t, ht, hkt⟩
    rcases List.mem_filterMap.mp ht with ⟨rc, hrc, hg⟩
    have hc : rc.2 = some t.1 := by
      rcases h2 : rc.2 with _ | c
      · simp only [h2] at hg
        exact absurd hg (by simp)
      · rcases h3 : rc.1.1.fechaMinistracion with _ | f
        · simp only [h2, h3] at hg
          exact absurd hg (by simp)
        · simp only [h2, h3, Option.some.injEq] at hg
          rw [← hg]
    rcases List.mem_map.mp hrc with ⟨rd, hrd, hh⟩
    have hn : t.1 ∈ control.map ControlRow.n := by
      rcases h4 : dictGet (control.map (fun c => (nombreUpper c, c.n))) rd.1.promotor
        with _ | c0
      · simp only [h4] at hh
        rw [← hh] at hc
        simp only [Option.bind_eq_some] at hc
        rcases hc with ⟨nm, hnm, hget⟩
        exact dictGet_control_mem control (fun c => normalize_name c.nombre) nm t.1 hget
      · simp only [h4] at hh
        rw [← hh] at hc
        simp only [Option.some.injEq] at hc
        rw [← hc]
        exact dictGet_control_mem control nombreUpper rd.1.promotor c0 h4
    rw [← hkt]
    exact hn

unseal Rat.add Rat.mul Rat.inv Rat.sub in
/-- Witness for the amended C3: a cobranza row whose name matches neither
the normalized lookup nor the fuzzy fallback is retained, paired with the
null code. -/
theorem unmatched_retention_witness :
    (({ nombrePromotor := "ZZZZZZZ", deposito := 5, contrato := "K" } : CobranzaRow),
        (none : Option String)) ∈
      reconcile_cobranza [{ n := "P1", nombre := "Promotor Uno" }]
        [{ nombrePromotor := "ZZZZZZZ", deposito := 5, contrato := "K" }] :=
  (unmatched_retention [{ n := "P1", nombre := "Promotor Uno" }]
      [{ nombrePromotor := "ZZZZZZZ", deposito := 5, contrato := "K" }] []).2.1
    { nombrePromotor := "ZZZZZZZ", deposito := 5, contrato := "K" }
    (by decide) (by decide) (by decide)

unseal Rat.add Rat.mul Rat.inv Rat.sub in
/-- C3 as stated is false for `load_data_descuentos`: a strictly positive
discount row whose promoter name fails every tier disappears from the
aggregated output (empty here) — it is not retained with a null code, and
the loader returns no unmatched-names report; the same row with a matching
name is kept, so the disappearance is the reconciliation miss. -/
theorem descuentos_drops_unmatched :
    load_data_descuentos [{ n := "P1", nombre := "Promotor Uno" }]
        [{ promotor := "ZZZZZZZ", fechaMinistracion := some 0, descuentoRenovacion := "10.0" }] = [] ∧
    load_data_descuentos [{ n := "P1", nombre := "Promotor Uno" }]
        [{ promotor := "Promotor Uno", fechaMinistracion := some 0, descuentoRenovacion := "10.0" }] =
      [{ n := "P1", semana := 1, descuentoRenovacion := 10 }] := by
  decide
